import Mathlib

/-!
Verification of the artoo agent's orchestration core.

Shallow embedding of:
- the bounded-concurrency tool executor (`executeToolsConcurrently`, from the
  implementation in the concurrent-execution design document, which is the
  code the repository's `agent` tests exercise);
- the tool registry merge (`MergeTools`) and plugin discovery (`LoadPlugins`)
  from the `tool` package;
- the typed-tool wrapper (`toolWrapperCall`) and plugin subprocess invocation
  (`PluginToolCall`) from the `tool` package;
- the conversation/context manager (`Conversation.Trim`, tool-result
  truncation) and the turn loop (`SendMessage`).

Subprocess execution and the filesystem are modelled as oracle parameters
(functions passed in), concurrency as an explicit completion order
respectively a small-step scheduling relation on executor states.
-/

/-- One tool-use request block from an assistant response
(anthropic.ToolUseBlock: ID, Name, Input as raw JSON text). -/
structure ToolUseBlock where
  id : String
  name : String
  input : String
deriving DecidableEq, Repr, Inhabited

/-- One tool-result block (anthropic.ToolResultBlock: correlation id,
textual content, error flag). -/
structure ToolResultBlock where
  toolUseId : String
  content : String
  isError : Bool
deriving DecidableEq, Repr, Inhabited

/-- anthropic.NewToolResultBlock(id, text, isError). -/
def NewToolResultBlock (id text : String) (isError : Bool) : ToolResultBlock :=
  ⟨id, text, isError⟩

/-! ## Bounded-concurrency tool executor

Embedded from `executeToolsConcurrently` (agent package): results are collected
as (original index, result) pairs in completion order, then sorted by original
index with `slices.SortFunc`, and the indices are stripped.  The
nondeterministic completion order of the goroutines is an explicit parameter:
a list of indices, one per finished invocation. -/

/-- Comparison used by the executor's final sort: by original request index
(`cmp.Compare(a.index, b.index)`). -/
def leIdx {β : Type} (a b : Nat × β) : Prop :=
  a.1 ≤ b.1

instance {β : Type} : DecidableRel (@leIdx β) :=
  fun a b => Nat.decLe a.1 b.1

instance {β : Type} : IsTotal (Nat × β) leIdx :=
  ⟨fun a b => Nat.le_total a.1 b.1⟩

instance {β : Type} : IsTrans (Nat × β) leIdx :=
  ⟨fun _ _ _ => Nat.le_trans⟩

/-- Strict version of `leIdx`, used only in proofs. -/
def ltIdx {β : Type} (a b : Nat × β) : Prop :=
  a.1 < b.1

instance {β : Type} : IsAntisymm (Nat × β) ltIdx :=
  ⟨fun _ _ h1 h2 => absurd (Nat.lt_trans h1 h2) (Nat.lt_irrefl _)⟩

/-- `slices.SortFunc(results, cmp.Compare on index)`. -/
def sortByIndex {β : Type} (l : List (Nat × β)) : List (Nat × β) :=
  List.insertionSort leIdx l

/-- `executeToolsConcurrently(blocks)`: a single request runs inline; otherwise
every request index is executed (the completion order lists the indices in the
order the goroutines finish), results are paired with their original index,
sorted by index, and the indices stripped.  `exec` is the per-request execution
(`executeToolUse`), total because every request yields exactly one result. -/
def executeToolsConcurrently (blocks : List ToolUseBlock)
    (exec : ToolUseBlock → ToolResultBlock) (completion : List Nat) :
    List ToolResultBlock :=
  if blocks.length = 1 then
    [exec (blocks.getD 0 default)]
  else
    let collected := completion.map fun i => (i, exec (blocks.getD i default))
    (sortByIndex collected).map Prod.snd

/-! ## Executor scheduling model (semaphore)

Small-step model of the dispatch phase of `executeToolsConcurrently` for a
batch of `n` requests: `sem := make(chan struct{}, cap)`; each goroutine first
sends on `sem` (possible only while fewer than `cap` goroutines hold it — for
`cap = 0` the channel is unbuffered and no receiver ever exists before a send
completes, so no send can ever complete) and receives on `sem` when done. -/

/-- Scheduling state of one dispatch batch: request indices not yet holding the
semaphore, currently in flight, and finished. -/
structure ExecSchedState where
  pending : List Nat
  running : List Nat
  finished : List Nat
deriving DecidableEq, Repr

/-- One scheduler step: a pending invocation acquires the semaphore (only while
strictly fewer than `cap` are in flight), or an in-flight invocation finishes
and releases it. -/
inductive SemStep (cap : Nat) : ExecSchedState → ExecSchedState → Prop
  | acquire (i : Nat) (s : ExecSchedState) :
      i ∈ s.pending → s.running.length < cap →
      SemStep cap s ⟨s.pending.erase i, i :: s.running, s.finished⟩
  | finish (i : Nat) (s : ExecSchedState) :
      i ∈ s.running →
      SemStep cap s ⟨s.pending, s.running.erase i, i :: s.finished⟩

/-- Initial state of a dispatch batch of `n` requests. -/
def initState (n : Nat) : ExecSchedState :=
  ⟨List.range n, [], []⟩

/-- States reachable by the executor's scheduler for ceiling `cap` and batch
size `n`. -/
def SemReachable (cap n : Nat) (s : ExecSchedState) : Prop :=
  Relation.ReflTransGen (SemStep cap) (initState n) s

/-! ## Tool registry: MergeTools and LoadPlugins (tool package) -/

/-- A registered tool, reduced to its descriptor name (`t.Param().Name`),
which is all `MergeTools` and the registry key inspect. -/
structure ToolDef where
  name : String
deriving DecidableEq, Repr, Inhabited

/-- errPluginConflict ("plugin tool conflicts with built-in tool"). -/
inductive MergeError where
  | pluginConflict
deriving DecidableEq, Repr

/-- The plugin loop of `MergeTools`: each plugin's name is checked against the
accumulated name set (`names[name]`) and then added to it.  Returns true when
some plugin collides. -/
def pluginsConflict (names : List String) : List ToolDef → Bool
  | [] => false
  | p :: rest => names.contains p.name || pluginsConflict (p.name :: names) rest

/-- `MergeTools(builtIn, plugins)`: the name set is seeded with every built-in
name (duplicates among built-ins collapse silently in the map), every plugin is
checked against it, and on success the result is built-ins followed by
plugins; on a conflict no tools are returned. -/
def MergeTools (builtIn plugins : List ToolDef) : Except MergeError (List ToolDef) :=
  if pluginsConflict (builtIn.map ToolDef.name) plugins then
    Except.error MergeError.pluginConflict
  else
    Except.ok (builtIn ++ plugins)

/-- One directory entry (name and whether it is a subdirectory). -/
structure DirEntry where
  name : String
  isDir : Bool
deriving DecidableEq, Repr

/-- Result of `os.ReadDir` on the plugin directory, as an oracle value. -/
inductive ReadDirResult where
  | notExist
  | failed (msg : String)
  | ok (entries : List DirEntry)
deriving Repr

/-- The per-entry loop of `LoadPlugins`: subdirectories are skipped, each file
is handed to `NewPluginTool` (modelled as the oracle `newPluginTool` applied to
the joined path); failures are collected as warnings, successes as tools, in
directory order. -/
def loadEntries (dir : String) (newPluginTool : String → Except String ToolDef) :
    List DirEntry → List ToolDef × List String
  | [] => ([], [])
  | e :: rest =>
    if e.isDir then
      loadEntries dir newPluginTool rest
    else
      match newPluginTool (dir ++ "/" ++ e.name) with
      | Except.error err =>
        let p := loadEntries dir newPluginTool rest
        (p.1, err :: p.2)
      | Except.ok t =>
        let p := loadEntries dir newPluginTool rest
        (t :: p.1, p.2)

/-- `LoadPlugins(dir, timeout)`: an empty directory path means no plugins; a
directory that does not exist is also silently no plugins; any other read
error is reported (joined with errReadingPluginDir); otherwise the entries are
loaded one by one.  The filesystem read and `NewPluginTool` are oracle
parameters. -/
def LoadPlugins (dir : String) (readDir : String → ReadDirResult)
    (newPluginTool : String → Except String ToolDef) :
    List ToolDef × List String :=
  if dir = "" then ([], [])
  else
    match readDir dir with
    | ReadDirResult.notExist => ([], [])
    | ReadDirResult.failed e => ([], ["reading plugin directory: " ++ e])
    | ReadDirResult.ok entries => loadEntries dir newPluginTool entries

/-! ## Typed-tool wrapper (tool package, toolWrapper.Call) -/

/-- `toolWrapper[P].Call(block)`: unmarshal the raw input into the typed
parameters (`parse` models `json.Unmarshal` into `P`), delegate to the typed
tool (`typedCall` models `TypedTool.Call`, returning either output text or an
error wrapped as Go's `(string, error)`), and convert every error into an
in-band failure result. -/
def toolWrapperCall {P : Type} (parse : String → Except String P)
    (typedCall : P → Except String String) (block : ToolUseBlock) :
    ToolResultBlock :=
  match parse block.input with
  | Except.error e =>
    NewToolResultBlock block.id ("Error unmarshalling parameters: " ++ e) true
  | Except.ok p =>
    match typedCall p with
    | Except.error e => NewToolResultBlock block.id ("Error: " ++ e) true
    | Except.ok output => NewToolResultBlock block.id output false

/-! ## Plugin subprocess invocation (tool package, PluginTool.Call) -/

/-- Outcome of running the plugin executable once (`cmd.Run` with captured
stdout/stderr): `runErr` is `some e` when the command failed (non-zero exit,
start failure, or the context timeout firing). -/
structure ProcResult where
  runErr : Option String
  stdout : String
  stderr : String
deriving DecidableEq, Repr

/-- `schemaTimeoutDuration = 5 * time.Second`, used only at load time. -/
def schemaTimeoutDuration : Nat := 5

/-- `defaultPluginTimeout = 30 * time.Second`. -/
def defaultPluginTimeout : Nat := 30

/-- A loaded `PluginTool`: executable path and per-plugin execution timeout
(seconds). -/
structure PluginToolData where
  path : String
  timeout : Nat
deriving DecidableEq, Repr

/-- `PluginTool.Call(block)`: run the executable (oracle `run`, taking the
path, the JSON parameters delivered on standard input, and the timeout bound)
with the invocation's raw input on stdin and the per-plugin timeout; a run
error becomes a failure whose message carries captured stderr when nonempty,
otherwise captured stdout is the success text. -/
def PluginToolCall (run : String → String → Nat → ProcResult)
    (p : PluginToolData) (block : ToolUseBlock) : ToolResultBlock :=
  let r := run p.path block.input p.timeout
  match r.runErr with
  | some e =>
    if r.stderr.length > 0 then
      NewToolResultBlock block.id ("Plugin error: " ++ e ++ "\n" ++ r.stderr) true
    else
      NewToolResultBlock block.id ("Plugin error: " ++ e) true
  | none => NewToolResultBlock block.id r.stdout false

/-! ## Per-request execution inside the executor -/

/-- Modelled from the spec: the per-request execution step of the executor
(`executeToolUse`, whose body is absent from the sources — only its caller
`executeToolsConcurrently` and the agent tests appear): resolve the tool by
name in the registry map; if unresolved, synthesize a failure result with
message "Tool not found" rather than skipping the request, so that every
request produces exactly one result. -/
def executeToolUse (toolMap : String → Option (ToolUseBlock → ToolResultBlock))
    (block : ToolUseBlock) : ToolResultBlock :=
  match toolMap block.name with
  | none => NewToolResultBlock block.id "Tool not found" true
  | some t => t block

/-! ## Conversation / context manager (conversation package)

The current-generation `conversation.go` (token budget, trimming, tool-result
truncation) is absent from the sources; only its tests and the design
documents appear.  The definitions below are modelled from the spec and are
constrained by those tests. -/

/-- Message role. -/
inductive Role where
  | user
  | assistant
deriving DecidableEq, Repr, Inhabited

/-- One content segment of a message: free text, a tool-invocation request, or
a tool result. -/
inductive ContentSegment where
  | text (value : String)
  | toolUse (id name input : String)
  | toolResult (toolUseId output : String) (isError : Bool)
deriving DecidableEq, Repr, Inhabited

/-- One conversation message: role plus ordered content segments. -/
structure Message where
  role : Role
  content : List ContentSegment
deriving DecidableEq, Repr, Inhabited

/-- conversation.Config: token budget and tool-result character ceiling. -/
structure ConvConfig where
  MaxContextTokens : Nat
  ToolResultMaxChars : Nat
deriving DecidableEq, Repr

/-- conversation.Conversation: ordered message history, configuration, and the
running backend-reported token estimate. -/
structure Conversation where
  messages : List Message
  config : ConvConfig
  totalInputTokens : Nat
deriving DecidableEq, Repr

/-- `Append` adds one message to the history unconditionally. -/
def Conversation.Append (c : Conversation) (m : Message) : Conversation :=
  { c with messages := c.messages ++ [m] }

/-- `UpdateTokenCount` overwrites the estimate with the backend-reported
input-token count. -/
def Conversation.UpdateTokenCount (c : Conversation) (n : Nat) : Conversation :=
  { c with totalInputTokens := n }

/-- Modelled from the spec: the fixed 10% decay applied to the token estimate
after each removed message (integer arithmetic). -/
def decayEstimate (e : Nat) : Nat :=
  e * 9 / 10

/-- Modelled from the spec: the removal loop of `Trim` over the history after
the preserved first message.  Before each removal the loop stops if the
estimate is at or below the 75% threshold (`4*e ≤ 3*budget`) or if only two
messages remain after the preserved first one; otherwise it removes the oldest
remaining message and decays the estimate by 10%. -/
def trimTail (budget : Nat) : List Message → Nat → List Message × Nat
  | [], est => ([], est)
  | m :: rest, est =>
    if 4 * est ≤ 3 * budget ∨ rest.length ≤ 1 then (m :: rest, est)
    else trimTail budget rest (decayEstimate est)

/-- Modelled from the spec: `Trim()` — a no-op when the budget is 0
(unlimited) or the estimate is at most 75% of the budget; otherwise the first
message is preserved and the removal loop runs on the rest. -/
def Conversation.Trim (c : Conversation) : Conversation :=
  if c.config.MaxContextTokens = 0 then c
  else if 4 * c.totalInputTokens ≤ 3 * c.config.MaxContextTokens then c
  else
    match c.messages with
    | [] => c
    | first :: tail =>
      let p := trimTail c.config.MaxContextTokens tail c.totalInputTokens
      { c with messages := first :: p.1, totalInputTokens := p.2 }

/-- Fixed leading text of the truncation notice. -/
def noticePre : List Char :=
  "\n\n[Tool result truncated: original ".data

/-- Fixed middle text of the truncation notice. -/
def noticeMid : List Char :=
  " chars, showing first ".data

/-- Fixed trailing text of the truncation notice. -/
def noticeSuf : List Char :=
  " chars]".data

/-- Modelled from the spec: the fixed-format truncation notice stating the
original and truncated lengths. -/
def truncNotice (orig kept : Nat) : List Char :=
  noticePre ++ (toString orig).data ++ noticeMid ++ (toString kept).data ++ noticeSuf

/-- Modelled from the spec: tool-result text truncation — the identity on text
of at most `maxChars` characters; otherwise the first `maxChars` characters
followed by the truncation notice.  Text is modelled as a character list. -/
def truncateText (maxChars : Nat) (s : List Char) : List Char :=
  if s.length ≤ maxChars then s
  else s.take maxChars ++ truncNotice s.length maxChars

/-- Modelled from the spec: `truncateToolResult` applies the text truncation
to the output of a tool-result segment, leaving other segments alone. -/
def Conversation.truncateToolResult (c : Conversation) (seg : ContentSegment) :
    ContentSegment :=
  match seg with
  | ContentSegment.toolResult id out isError =>
    ContentSegment.toolResult id
      (String.mk (truncateText c.config.ToolResultMaxChars out.data)) isError
  | other => other

/-! ## Turn loop (agent package, SendMessage)

The current-generation `agent.go` is absent from the sources (its callers in
`main.go`, its configuration/callback declarations, and its tests appear).
The loop below is modelled from the spec: per iteration, trim, call the
backend (scripted as a finite list of responses-or-errors), update the token
estimate, append the assistant message, and either finish (no tool requests)
or execute the requests through the executor, append the results as one
user-role message, and repeat. -/

/-- One backend completion response: ordered content segments, stop reason,
and the reported input-token usage. -/
structure AgentResponse where
  content : List ContentSegment
  stopReason : String
  inputTokens : Nat
deriving DecidableEq, Repr

/-- The user message wrapping one line of user input. -/
def userTextMessage (s : String) : Message :=
  ⟨Role.user, [ContentSegment.text s]⟩

/-- Extract the tool-invocation requests of a response's content, in order. -/
def segToolUses (content : List ContentSegment) : List ToolUseBlock :=
  content.filterMap fun seg =>
    match seg with
    | ContentSegment.toolUse id name input => some ⟨id, name, input⟩
    | _ => none

/-- Running "final text": the last text segment seen, or the accumulator. -/
def lastTextOf (content : List ContentSegment) (acc : String) : String :=
  content.foldl
    (fun a seg =>
      match seg with
      | ContentSegment.text t => t
      | _ => a)
    acc

/-- Wrap executor results as tool-result content segments. -/
def resultSegments (rs : List ToolResultBlock) : List ContentSegment :=
  rs.map fun r => ContentSegment.toolResult r.toolUseId r.content r.isError

/-- Modelled from the spec: the tool-use loop of `SendMessage`, driven by a
finite backend script.  A backend error aborts the turn at once — the error is
returned and the remaining script is never consulted; the conversation keeps
the state it had going into the call (history trimmed, user message last, no
assistant message appended for that attempt). -/
def sendMessageLoop (toolMap : String → Option (ToolUseBlock → ToolResultBlock)) :
    List (Except String AgentResponse) → Conversation → String →
    Except String (String × String) × Conversation
  | [], c, _ => (Except.error "backend returned no response", c.Trim)
  | Except.error e :: _, c, _ => (Except.error e, c.Trim)
  | Except.ok resp :: rest, c, finalText =>
    let c1 := c.Trim
    let c2 := (c1.UpdateTokenCount resp.inputTokens).Append ⟨Role.assistant, resp.content⟩
    let text := lastTextOf resp.content finalText
    let blocks := segToolUses resp.content
    if blocks.isEmpty then
      (Except.ok (text, resp.stopReason), c2)
    else
      let results := executeToolsConcurrently blocks (executeToolUse toolMap)
        (List.range blocks.length)
      let c3 := c2.Append ⟨Role.user, resultSegments results⟩
      sendMessageLoop toolMap rest c3 text

/-- Modelled from the spec: `SendMessage` appends the user's message and runs
the tool-use loop against the scripted backend. -/
def SendMessage (toolMap : String → Option (ToolUseBlock → ToolResultBlock))
    (c : Conversation) (text : String)
    (script : List (Except String AgentResponse)) :
    Except String (String × String) × Conversation :=
  sendMessageLoop toolMap script (c.Append (userTextMessage text)) ""

/-! ## Helper lemmas (shared) -/

theorem sortByIndex_perm_range_eq {β : Type} (f : Nat → β) {order : List Nat}
    {n : Nat} (h : List.Perm order (List.range n)) :
    sortByIndex (order.map fun i => (i, f i)) =
      (List.range n).map fun i => (i, f i) := by
  have hperm : List.Perm (sortByIndex (order.map fun i => (i, f i)))
      ((List.range n).map fun i => (i, f i)) :=
    (List.perm_insertionSort _ _).trans (h.map _)
  have htarget_lt :
      List.Pairwise ltIdx ((List.range n).map fun i => (i, f i)) := by
    rw [List.pairwise_map]
    exact (List.pairwise_lt_range n).imp fun hij => hij
  have hsorted_le : List.Sorted leIdx (sortByIndex (order.map fun i => (i, f i))) :=
    List.sorted_insertionSort _ _
  have hkeys : (sortByIndex (order.map fun i => (i, f i))).Pairwise
      fun a b => a.1 ≠ b.1 := by
    exact (hperm.pairwise_iff fun hab hba => hab hba.symm).mpr
      (htarget_lt.imp fun hab => Nat.ne_of_lt hab)
  have hsorted_lt :
      List.Pairwise ltIdx (sortByIndex (order.map fun i => (i, f i))) := by
    have hand := List.Pairwise.and hsorted_le hkeys
    exact hand.imp fun hab => Nat.lt_of_le_of_ne hab.1 hab.2
  exact List.eq_of_perm_of_sorted hperm hsorted_lt htarget_lt

theorem map_getD_range {α β : Type} (l : List α) (d : α) (g : α → β) :
    (List.range l.length).map (fun i => g (l.getD i d)) = l.map g := by
  induction l with
  | nil => simp
  | cons a t ih =>
    rw [List.length_cons, List.range_succ_eq_map, List.map_cons, List.map_map]
    refine congrArg₂ List.cons rfl ?_
    calc (List.range t.length).map ((fun i => g ((a :: t).getD i d)) ∘ Nat.succ)
        = (List.range t.length).map (fun i => g (t.getD i d)) := by
          refine List.map_congr_left fun i _ => ?_
          simp [Function.comp]
      _ = t.map g := ih

theorem executeToolsConcurrently_eq_map (blocks : List ToolUseBlock)
    (exec : ToolUseBlock → ToolResultBlock) {order : List Nat}
    (h : List.Perm order (List.range blocks.length)) :
    executeToolsConcurrently blocks exec order = blocks.map exec := by
  unfold executeToolsConcurrently
  by_cases h1 : blocks.length = 1
  · obtain ⟨b, rfl⟩ := List.length_eq_one.mp h1
    simp
  · simp only [h1, if_false]
    rw [sortByIndex_perm_range_eq (fun i => exec (blocks.getD i default)) h,
      List.map_map]
    exact map_getD_range blocks default exec

theorem pluginsConflict_iff (ps : List ToolDef) :
    ∀ names : List String,
      pluginsConflict names ps = true ↔
        ¬ (ps.map ToolDef.name).Nodup ∨ ∃ p ∈ ps, p.name ∈ names := by
  induction ps with
  | nil => intro names; simp [pluginsConflict]
  | cons p rest ih =>
    intro names
    rw [pluginsConflict, Bool.or_eq_true, List.contains_iff_exists_mem_beq]
    constructor
    · rintro (hc | hrec)
      · obtain ⟨x, hx, hbeq⟩ := hc
        refine Or.inr ⟨p, List.mem_cons_self p rest, ?_⟩
        have hpx : p.name = x := by simpa using hbeq
        rw [hpx]; exact hx
      · rcases (ih (p.name :: names)).mp hrec with hnd | ⟨q, hq, hmem⟩
        · refine Or.inl fun hcons => hnd ?_
          rw [List.map_cons, List.nodup_cons] at hcons
          exact hcons.2
        · rcases List.mem_cons.mp hmem with hqp | hqnames
          · refine Or.inl fun hcons => ?_
            rw [List.map_cons, List.nodup_cons] at hcons
            exact hcons.1 (hqp ▸ List.mem_map_of_mem ToolDef.name hq)
          · exact Or.inr ⟨q, List.mem_cons_of_mem p hq, hqnames⟩
    · rintro (hnd | ⟨q, hq, hqnames⟩)
      · rw [List.map_cons, List.nodup_cons] at hnd
        push_neg at hnd
        by_cases hmem : p.name ∈ rest.map ToolDef.name
        · obtain ⟨q, hq, hqname⟩ := List.mem_map.mp hmem
          refine Or.inr ((ih (p.name :: names)).mpr (Or.inr ⟨q, hq, ?_⟩))
          rw [hqname]; exact List.mem_cons_self _ _
        · exact Or.inr ((ih (p.name :: names)).mpr (Or.inl (hnd hmem)))
      · rcases List.mem_cons.mp hq with rfl | hqrest
        · exact Or.inl ⟨q.name, hqnames, by simp⟩
        · exact Or.inr ((ih (p.name :: names)).mpr
            (Or.inr ⟨q, hqrest, List.mem_cons_of_mem _ hqnames⟩))

theorem trimTail_spec (b : Nat) (tail : List Message) :
    ∀ est : Nat,
      ∃ k, k ≤ tail.length ∧
        trimTail b tail est = (tail.drop k, decayEstimate^[k] est) ∧
        (4 * decayEstimate^[k] est ≤ 3 * b ∨ (tail.drop k).length ≤ 2) ∧
        (∀ j, j < k →
          ¬ 4 * decayEstimate^[j] est ≤ 3 * b ∧ 2 < (tail.drop j).length) ∧
        (tail ≠ [] → tail.drop k ≠ []) := by
  induction tail with
  | nil =>
    intro est
    exact ⟨0, Nat.le_refl 0, by simp [trimTail], Or.inr (by simp),
      fun j hj => absurd hj (Nat.not_lt_zero j), fun h => absurd rfl h⟩
  | cons m rest ih =>
    intro est
    by_cases hstop : 4 * est ≤ 3 * b ∨ rest.length ≤ 1
    · refine ⟨0, Nat.zero_le _, ?_, ?_, fun j hj => absurd hj (Nat.not_lt_zero j),
        fun _ => by simp⟩
      · simp only [trimTail, if_pos hstop, List.drop_zero, Function.iterate_zero_apply]
      · rcases hstop with h | h
        · exact Or.inl h
        · exact Or.inr (by simp only [List.drop_zero, List.length_cons]; omega)
    · push_neg at hstop
      obtain ⟨hthr, hlen⟩ := hstop
      obtain ⟨k, hk, heq, hcond, hrun, hne⟩ := ih (decayEstimate est)
      refine ⟨k + 1, ?_, ?_, ?_, ?_, ?_⟩
      · simpa using Nat.succ_le_succ hk
      · rw [trimTail, if_neg (by push_neg; exact ⟨hthr, hlen⟩), heq,
          List.drop_succ_cons, Function.iterate_succ_apply]
      · rw [List.drop_succ_cons, Function.iterate_succ_apply]
        exact hcond
      · intro j hj
        match j with
        | 0 =>
          refine ⟨by simpa using hthr, ?_⟩
          simp only [List.drop_zero, List.length_cons]
          omega
        | j' + 1 =>
          have := hrun j' (Nat.lt_of_succ_lt_succ hj)
          rw [Function.iterate_succ_apply, List.drop_succ_cons]
          exact this
      · intro _
        rw [List.drop_succ_cons]
        refine hne ?_
        intro hrest
        rw [hrest] at hlen
        simp at hlen

theorem getLast?_drop_of_ne_nil {α : Type} :
    ∀ (k : Nat) (l : List α), l.drop k ≠ [] → (l.drop k).getLast? = l.getLast? := by
  intro k
  induction k with
  | zero => intro l _; rfl
  | succ k ih =>
    intro l hne
    match l with
    | [] => simp at hne
    | a :: t =>
      rw [List.drop_succ_cons] at hne ⊢
      rw [ih t hne]
      have ht : t ≠ [] := by
        intro h
        rw [h] at hne
        simp at hne
      match t with
      | [] => exact absurd rfl ht
      | b :: t2 => exact List.getLast?_cons_cons.symm

theorem getLast?_cons_of_ne_nil {α : Type} (a : α) {l : List α} (h : l ≠ []) :
    (a :: l).getLast? = l.getLast? := by
  match l with
  | [] => exact absurd rfl h
  | b :: t => exact List.getLast?_cons_cons

theorem trim_messages_getLast? (c : Conversation) :
    (c.Trim).messages.getLast? = c.messages.getLast? := by
  unfold Conversation.Trim
  by_cases h0 : c.config.MaxContextTokens = 0
  · rw [if_pos h0]
  · rw [if_neg h0]
    by_cases hthr : 4 * c.totalInputTokens ≤ 3 * c.config.MaxContextTokens
    · rw [if_pos hthr]
    · rw [if_neg hthr]
      match hmsg : c.messages with
      | [] => exact congrArg List.getLast? hmsg
      | first :: tail =>
        obtain ⟨k, _, heq, _, _, hne⟩ :=
          trimTail_spec c.config.MaxContextTokens tail c.totalInputTokens
        simp only [heq]
        by_cases htail : tail = []
        · subst htail
          simp
        · have hdrop := hne htail
          rw [getLast?_cons_of_ne_nil first hdrop,
            getLast?_drop_of_ne_nil k tail hdrop,
            getLast?_cons_of_ne_nil first htail]

theorem trim_messages_subset (c : Conversation) :
    ∀ m ∈ (c.Trim).messages, m ∈ c.messages := by
  unfold Conversation.Trim
  by_cases h0 : c.config.MaxContextTokens = 0
  · rw [if_pos h0]; exact fun m hm => hm
  · rw [if_neg h0]
    by_cases hthr : 4 * c.totalInputTokens ≤ 3 * c.config.MaxContextTokens
    · rw [if_pos hthr]; exact fun m hm => hm
    · rw [if_neg hthr]
      match hmsg : c.messages with
      | [] => exact fun m hm => by rw [← hmsg]; exact hm
      | first :: tail =>
        obtain ⟨k, _, heq, _, _, _⟩ :=
          trimTail_spec c.config.MaxContextTokens tail c.totalInputTokens
        simp only [heq]
        intro m hm
        have hsub : (first :: tail.drop k).Sublist (first :: tail) :=
          List.Sublist.cons₂ first (List.drop_sublist k tail)
        exact hsub.subset hm

/-! ## Claims -/

/-- C1: for every batch of tool-invocation requests, the executor's returned
list, read positionally, corresponds to the requests in the same order as the
input list, regardless of the order in which individual invocations complete
(the completion order is an arbitrary permutation of the request indices, and
the results are sorted by original request index before being returned). -/
theorem executeToolsConcurrently_order_preserved
    (blocks : List ToolUseBlock) (exec : ToolUseBlock → ToolResultBlock)
    (order : List Nat) (h : List.Perm order (List.range blocks.length)) :
    (executeToolsConcurrently blocks exec order).length = blocks.length ∧
    ∀ i : Nat, (executeToolsConcurrently blocks exec order)[i]? =
      (blocks[i]?).map exec := by
  rw [executeToolsConcurrently_eq_map blocks exec h]
  exact ⟨List.length_map blocks exec, fun i => List.getElem?_map exec blocks i⟩

/-- Witness for C1: a two-request batch whose completion order is reversed
(the second request finishes first) still returns the results in input
order. -/
theorem executeToolsConcurrently_order_preserved_witness :
    List.Perm [1, 0]
      (List.range ([⟨"a", "slow", "{}"⟩, ⟨"b", "fast", "{}"⟩] : List ToolUseBlock).length) ∧
    (executeToolsConcurrently [⟨"a", "slow", "{}"⟩, ⟨"b", "fast", "{}"⟩]
        (fun b : ToolUseBlock => NewToolResultBlock b.id b.name false) [1, 0]).length = 2 ∧
    ∀ i : Nat,
      (executeToolsConcurrently [⟨"a", "slow", "{}"⟩, ⟨"b", "fast", "{}"⟩]
          (fun b : ToolUseBlock => NewToolResultBlock b.id b.name false) [1, 0])[i]? =
        (([⟨"a", "slow", "{}"⟩, ⟨"b", "fast", "{}"⟩] : List ToolUseBlock)[i]?).map
          (fun b : ToolUseBlock => NewToolResultBlock b.id b.name false) :=
  ⟨by decide,
    executeToolsConcurrently_order_preserved
      [⟨"a", "slow", "{}"⟩, ⟨"b", "fast", "{}"⟩]
      (fun b : ToolUseBlock => NewToolResultBlock b.id b.name false) [1, 0] (by decide)⟩

/-- C2: every batch of N requests yields exactly N results — no request is
silently dropped; a request naming a tool absent from the registry still
yields one failure result with message "Tool not found" in its slot. -/
theorem executeToolsConcurrently_completeness
    (toolMap : String → Option (ToolUseBlock → ToolResultBlock))
    (blocks : List ToolUseBlock) (order : List Nat)
    (h : List.Perm order (List.range blocks.length)) :
    (executeToolsConcurrently blocks (executeToolUse toolMap) order).length =
      blocks.length ∧
    ∀ (i : Nat) (b : ToolUseBlock), blocks[i]? = some b → toolMap b.name = none →
      (executeToolsConcurrently blocks (executeToolUse toolMap) order)[i]? =
        some (NewToolResultBlock b.id "Tool not found" true) := by
  rw [executeToolsConcurrently_eq_map blocks (executeToolUse toolMap) h]
  refine ⟨List.length_map blocks _, fun i b hb hnone => ?_⟩
  simp only [List.getElem?_map, hb, Option.map_some', executeToolUse, hnone]

/-- Witness for C2: a one-request batch naming an unregistered tool returns
exactly one result, the "Tool not found" failure. -/
theorem executeToolsConcurrently_completeness_witness :
    List.Perm [0] (List.range ([⟨"id1", "ghost", "{}"⟩] : List ToolUseBlock).length) ∧
    (executeToolsConcurrently [⟨"id1", "ghost", "{}"⟩]
        (executeToolUse fun _ => none) [0]).length = 1 ∧
    (executeToolsConcurrently [⟨"id1", "ghost", "{}"⟩]
        (executeToolUse fun _ => none) [0])[0]? =
      some (NewToolResultBlock "id1" "Tool not found" true) :=
  ⟨by decide,
    (executeToolsConcurrently_completeness (fun _ => none)
        [⟨"id1", "ghost", "{}"⟩] [0] (by decide)).1,
    (executeToolsConcurrently_completeness (fun _ => none)
        [⟨"id1", "ghost", "{}"⟩] [0] (by decide)).2 0
      ⟨"id1", "ghost", "{}"⟩ rfl rfl⟩

theorem semReachable_running_le (cap n : Nat) (s : ExecSchedState)
    (h : SemReachable cap n s) : s.running.length ≤ cap := by
  induction h with
  | refl => simp [initState]
  | tail hrt hstep ih =>
    cases hstep with
    | acquire _ _ _ hlt => simpa using hlt
    | finish _ _ _ =>
      exact Nat.le_trans (List.Sublist.length_le (List.erase_sublist _ _)) ih

theorem semStep_seq_run (cap : Nat) (hcap : 1 ≤ cap) :
    ∀ (pend fin : List Nat),
      Relation.ReflTransGen (SemStep cap) ⟨pend, [], fin⟩ ⟨[], [], pend.reverse ++ fin⟩ := by
  intro pend
  induction pend with
  | nil =>
    intro fin
    simp only [List.reverse_nil, List.nil_append]
    exact Relation.ReflTransGen.refl
  | cons i rest ih =>
    intro fin
    have step1 : SemStep cap ⟨i :: rest, [], fin⟩ ⟨rest, [i], fin⟩ := by
      have := @SemStep.acquire cap i ⟨i :: rest, [], fin⟩
        (List.mem_cons_self i rest) (by simpa using hcap)
      simpa [List.erase_cons_head] using this
    have step2 : SemStep cap ⟨rest, [i], fin⟩ ⟨rest, [], i :: fin⟩ := by
      have := @SemStep.finish cap i ⟨rest, [i], fin⟩ (List.mem_cons_self i [])
      simpa [List.erase_cons_head] using this
    have htail := ih (i :: fin)
    have hrw : rest.reverse ++ (i :: fin) = (i :: rest).reverse ++ fin := by
      simp
    rw [hrw] at htail
    exact Relation.ReflTransGen.head step1 (Relation.ReflTransGen.head step2 htail)

theorem semStep_zero_stuck {n : Nat} {t : ExecSchedState}
    (h : SemStep 0 (initState n) t) : False := by
  cases h with
  | acquire i s hmem hlt => exact Nat.not_lt_zero _ hlt
  | finish i s hmem => simp [initState] at hmem

/-- C3 counterexample: the claim asserts that a ceiling value of at most 0 is
treated as 1 and the batch still completes.  With ceiling 0 the semaphore
channel is unbuffered: in the scheduling model no invocation of a 2-request
batch can ever acquire it, so no reachable state has both requests finished —
the batch never completes. -/
theorem executor_ceiling_zero_deadlock :
    ¬ ∃ s : ExecSchedState, SemReachable 0 2 s ∧ s.finished.length = 2 := by
  rintro ⟨s, hre, hfin⟩
  have hs : s = initState 2 := by
    rcases (Relation.ReflTransGen.cases_head hre) with heq | ⟨c, hstep, _⟩
    · exact heq.symm
    · exact absurd hstep semStep_zero_stuck
  rw [hs] at hfin
  simp [initState] at hfin

/-- C3 (amended): for every batch and every ceiling, the number of
simultaneously in-flight invocations never exceeds the ceiling; for ceilings
of at least 1 the batch can run to completion.  A ceiling of 0 or below is not
treated as 1: with ceiling 0 and two or more requests no invocation can ever
start (the executor deadlocks — see the counterexample), and a negative
ceiling makes the semaphore-channel construction panic. -/
theorem executor_inflight_bound_and_completion (cap n : Nat) :
    (∀ s : ExecSchedState, SemReachable cap n s → s.running.length ≤ cap) ∧
    (1 ≤ cap → ∃ s : ExecSchedState, SemReachable cap n s ∧
      s.pending = [] ∧ s.running = [] ∧ s.finished.length = n) := by
  refine ⟨fun s h => semReachable_running_le cap n s h, fun hcap => ?_⟩
  refine ⟨⟨[], [], (List.range n).reverse⟩, ?_, rfl, rfl, by simp⟩
  have := semStep_seq_run cap hcap (List.range n) []
  simpa [SemReachable, initState] using this

/-- Witness for C3 (amended): with ceiling 1 and a batch of 2 the executor
reaches a state with both requests finished. -/
theorem executor_inflight_bound_and_completion_witness :
    ∃ s : ExecSchedState, SemReachable 1 2 s ∧
      s.pending = [] ∧ s.running = [] ∧ s.finished.length = 2 :=
  (executor_inflight_bound_and_completion 1 2).2 (by decide)

/-- C4 counterexample: the claim asserts that registry construction fails
whenever any two tools being registered share a name, including a
built-in/built-in pair.  `MergeTools` accepts two built-ins named "dup"
without error and registers both. -/
theorem mergeTools_duplicate_builtins_accepted :
    MergeTools [⟨"dup"⟩, ⟨"dup"⟩] [] =
      Except.ok [ToolDef.mk "dup", ToolDef.mk "dup"] := by
  rfl

/-- C4 (amended): registry construction fails (with the conflict error and no
tools registered from the attempt) exactly when some plugin's name collides
with a built-in's name or with another plugin's name; duplicate names among
the built-ins themselves are not detected.  On success the registry holds the
built-ins followed by the plugins. -/
theorem mergeTools_conflict_characterization (builtIn plugins : List ToolDef) :
    ((MergeTools builtIn plugins = Except.error MergeError.pluginConflict) ↔
      (¬ (plugins.map ToolDef.name).Nodup ∨
        ∃ p ∈ plugins, p.name ∈ builtIn.map ToolDef.name)) ∧
    (MergeTools builtIn plugins = Except.error MergeError.pluginConflict ∨
      MergeTools builtIn plugins = Except.ok (builtIn ++ plugins)) := by
  unfold MergeTools
  by_cases hc : pluginsConflict (builtIn.map ToolDef.name) plugins = true
  · rw [if_pos hc]
    exact ⟨⟨fun _ => (pluginsConflict_iff plugins (builtIn.map ToolDef.name)).mp hc,
      fun _ => rfl⟩, Or.inl rfl⟩
  · rw [if_neg hc]
    refine ⟨⟨fun heq => absurd heq (by simp), fun hr => ?_⟩, Or.inr rfl⟩
    exact absurd ((pluginsConflict_iff plugins (builtIn.map ToolDef.name)).mpr hr) hc

theorem truncNotice_length_pos (orig kept : Nat) : 0 < (truncNotice orig kept).length := by
  have hpre : 0 < noticePre.length := by decide
  simp only [truncNotice, List.length_append]
  omega

/-- C5: tool-result truncation is the identity on text of length at most the
character ceiling; on longer text it returns exactly the first `maxChars`
characters of the original content followed by the fixed-format notice stating
the original and truncated lengths; and applying it to already-truncated
output keeps the same preserved content and exactly one notice — it does not
compound the notice. -/
theorem truncateText_behavior (maxChars : Nat) (s : List Char) :
    (s.length ≤ maxChars → truncateText maxChars s = s) ∧
    (maxChars < s.length →
      truncateText maxChars s = s.take maxChars ++ truncNotice s.length maxChars ∧
      (s.take maxChars).length = maxChars ∧
      ∃ n : Nat, truncateText maxChars (truncateText maxChars s) =
        s.take maxChars ++ truncNotice n maxChars) := by
  constructor
  · intro h
    simp [truncateText, h]
  · intro h
    have hnot : ¬ s.length ≤ maxChars := Nat.not_le.mpr h
    have heq : truncateText maxChars s = s.take maxChars ++ truncNotice s.length maxChars := by
      simp [truncateText, hnot]
    have htake : (s.take maxChars).length = maxChars := by
      rw [List.length_take]
      exact Nat.min_eq_left (Nat.le_of_lt h)
    refine ⟨heq, htake, ?_⟩
    have hlen : (truncateText maxChars s).length =
        maxChars + (truncNotice s.length maxChars).length := by
      rw [heq, List.length_append, htake]
    have hnot2 : ¬ (truncateText maxChars s).length ≤ maxChars := by
      rw [hlen]
      have := truncNotice_length_pos s.length maxChars
      omega
    refine ⟨(truncateText maxChars s).length, ?_⟩
    rw [truncateText, if_neg hnot2]
    refine congrArg₂ (· ++ ·) ?_ rfl
    rw [heq, List.take_append_of_le_length (Nat.le_of_eq htake.symm), List.take_take]
    rw [Nat.min_self]

/-- Witness for C5: with ceiling 3 and the 8-character text "abcdefgh",
truncation keeps exactly "abc" plus one notice, and a second application still
yields "abc" plus exactly one notice. -/
theorem truncateText_behavior_witness :
    3 < ("abcdefgh".data).length ∧
    truncateText 3 "abcdefgh".data =
      ("abcdefgh".data).take 3 ++ truncNotice ("abcdefgh".data).length 3 ∧
    (("abcdefgh".data).take 3).length = 3 ∧
    ∃ n : Nat, truncateText 3 (truncateText 3 "abcdefgh".data) =
      ("abcdefgh".data).take 3 ++ truncNotice n 3 :=
  ⟨by decide,
    ((truncateText_behavior 3 "abcdefgh".data).2 (by decide)).1,
    ((truncateText_behavior 3 "abcdefgh".data).2 (by decide)).2.1,
    ((truncateText_behavior 3 "abcdefgh".data).2 (by decide)).2.2⟩

/-- C6: `Trim` leaves the history unchanged when the token budget is 0 or the
estimate is at most 75% of the budget; otherwise it preserves the first
message and removes the oldest remaining messages one at a time, shrinking the
estimate by the fixed 10% decay per removal, stopping as soon as the estimate
is at or below the threshold or only two messages remain after the preserved
first one. -/
theorem trim_behavior (c : Conversation) :
    (c.config.MaxContextTokens = 0 → c.Trim = c) ∧
    (4 * c.totalInputTokens ≤ 3 * c.config.MaxContextTokens → c.Trim = c) ∧
    (c.config.MaxContextTokens ≠ 0 →
      ¬ 4 * c.totalInputTokens ≤ 3 * c.config.MaxContextTokens →
      ∀ (first : Message) (tail : List Message), c.messages = first :: tail →
        ∃ k, k ≤ tail.length ∧
          (c.Trim).messages = first :: tail.drop k ∧
          (c.Trim).totalInputTokens = decayEstimate^[k] c.totalInputTokens ∧
          (4 * decayEstimate^[k] c.totalInputTokens ≤ 3 * c.config.MaxContextTokens ∨
            (tail.drop k).length ≤ 2) ∧
          (∀ j, j < k →
            ¬ 4 * decayEstimate^[j] c.totalInputTokens ≤ 3 * c.config.MaxContextTokens ∧
            2 < (tail.drop j).length)) := by
  refine ⟨fun h0 => by simp [Conversation.Trim, h0], fun hthr => ?_, ?_⟩
  · by_cases h0 : c.config.MaxContextTokens = 0 <;>
      simp [Conversation.Trim, h0, hthr]
  · intro h0 hthr first tail hmsg
    obtain ⟨k, hk, heq, hcond, hrun, _⟩ :=
      trimTail_spec c.config.MaxContextTokens tail c.totalInputTokens
    refine ⟨k, hk, ?_, ?_, hcond, hrun⟩ <;>
      simp [Conversation.Trim, h0, hthr, hmsg, heq]

/-- Witness for C6: budget 10, estimate 10 (over the 75% threshold), five
messages: `Trim` removes the two oldest messages after the first and decays
the estimate twice (10 → 9 → 8), stopping with two messages left after the
first. -/
theorem trim_behavior_witness :
    ∃ k, k ≤ ([userTextMessage "b", userTextMessage "c", userTextMessage "d",
        userTextMessage "e"] : List Message).length ∧
      ((Conversation.mk (userTextMessage "a" :: [userTextMessage "b",
          userTextMessage "c", userTextMessage "d", userTextMessage "e"])
          ⟨10, 100⟩ 10).Trim).messages =
        userTextMessage "a" :: ([userTextMessage "b", userTextMessage "c",
          userTextMessage "d", userTextMessage "e"] : List Message).drop k ∧
      ((Conversation.mk (userTextMessage "a" :: [userTextMessage "b",
          userTextMessage "c", userTextMessage "d", userTextMessage "e"])
          ⟨10, 100⟩ 10).Trim).totalInputTokens = decayEstimate^[k] 10 ∧
      (4 * decayEstimate^[k] 10 ≤ 3 * 10 ∨
        (([userTextMessage "b", userTextMessage "c", userTextMessage "d",
          userTextMessage "e"] : List Message).drop k).length ≤ 2) ∧
      (∀ j, j < k → ¬ 4 * decayEstimate^[j] 10 ≤ 3 * 10 ∧
        2 < (([userTextMessage "b", userTextMessage "c", userTextMessage "d",
          userTextMessage "e"] : List Message).drop j).length) :=
  (trim_behavior (Conversation.mk (userTextMessage "a" :: [userTextMessage "b",
      userTextMessage "c", userTextMessage "d", userTextMessage "e"])
      ⟨10, 100⟩ 10)).2.2 (by decide) (by decide) (userTextMessage "a")
    [userTextMessage "b", userTextMessage "c", userTextMessage "d",
      userTextMessage "e"] rfl

/-- C7: when the backend completion call fails, the turn aborts and the error
is surfaced to the caller without automatic retry (the rest of the backend
script is never consulted), and the conversation keeps the state it had before
the call: the pending user message is still the last message and no message is
appended for that attempt beyond those already present. -/
theorem sendMessage_backend_error
    (toolMap : String → Option (ToolUseBlock → ToolResultBlock))
    (c : Conversation) (txt e : String)
    (rest : List (Except String AgentResponse)) :
    (SendMessage toolMap c txt (Except.error e :: rest)).1 = Except.error e ∧
    SendMessage toolMap c txt (Except.error e :: rest) =
      SendMessage toolMap c txt [Except.error e] ∧
    (SendMessage toolMap c txt (Except.error e :: rest)).2.messages.getLast? =
      some (userTextMessage txt) ∧
    ∀ m ∈ (SendMessage toolMap c txt (Except.error e :: rest)).2.messages,
      m ∈ (c.Append (userTextMessage txt)).messages := by
  have hunfold : SendMessage toolMap c txt (Except.error e :: rest) =
      (Except.error e, ((c.Append (userTextMessage txt)).Trim)) := rfl
  refine ⟨by rw [hunfold], rfl, ?_, ?_⟩
  · rw [hunfold]
    show ((c.Append (userTextMessage txt)).Trim).messages.getLast? = _
    rw [trim_messages_getLast?]
    show (c.messages ++ [userTextMessage txt]).getLast? = _
    exact List.getLast?_concat _
  · intro m hm
    rw [hunfold] at hm
    exact trim_messages_subset _ m hm

/-- Witness for C7: an empty conversation, a failing first backend response,
and a nonempty remaining script — the error is returned, the remaining script
is ignored, and the history holds exactly the pending user message. -/
theorem sendMessage_backend_error_witness :
    (SendMessage (fun _ => none) (Conversation.mk [] ⟨0, 0⟩ 0) "hi"
      (Except.error "boom" :: [Except.ok ⟨[], "end_turn", 0⟩])).1 =
        Except.error "boom" ∧
    userTextMessage "hi" ∈
      ((Conversation.mk [] ⟨0, 0⟩ 0).Append (userTextMessage "hi")).messages :=
  ⟨(sendMessage_backend_error (fun _ => none) (Conversation.mk [] ⟨0, 0⟩ 0)
      "hi" "boom" [Except.ok ⟨[], "end_turn", 0⟩]).1,
    (sendMessage_backend_error (fun _ => none) (Conversation.mk [] ⟨0, 0⟩ 0)
      "hi" "boom" [Except.ok ⟨[], "end_turn", 0⟩]).2.2.2
      (userTextMessage "hi") (by decide)⟩

/-- C8: the typed-tool wrapper never raises a fault to its caller — for every
parameters value it returns exactly one result carrying the request's id, and
parameter-parsing errors, execution errors, and timeouts (which surface as
execution errors of the wrapped call) each yield a failure result carrying a
human-readable message, while a successful call yields its output text. -/
theorem toolWrapperCall_never_faults {P : Type}
    (parse : String → Except String P)
    (typedCall : P → Except String String) (block : ToolUseBlock) :
    (toolWrapperCall parse typedCall block).toolUseId = block.id ∧
    (∀ e, parse block.input = Except.error e →
      toolWrapperCall parse typedCall block =
        NewToolResultBlock block.id ("Error unmarshalling parameters: " ++ e) true) ∧
    (∀ p e, parse block.input = Except.ok p → typedCall p = Except.error e →
      toolWrapperCall parse typedCall block =
        NewToolResultBlock block.id ("Error: " ++ e) true) ∧
    (∀ p out, parse block.input = Except.ok p → typedCall p = Except.ok out →
      toolWrapperCall parse typedCall block =
        NewToolResultBlock block.id out false) := by
  refine ⟨?_, ?_, ?_, ?_⟩
  · unfold toolWrapperCall
    rcases parse block.input with e | p
    · rfl
    · dsimp only
      rcases typedCall p with e | out <;> rfl
  · intro e hp
    unfold toolWrapperCall
    rw [hp]
  · intro p e hp hc
    unfold toolWrapperCall
    rw [hp]
    dsimp only
    rw [hc]
  · intro p out hp hc
    unfold toolWrapperCall
    rw [hp]
    dsimp only
    rw [hc]

/-- Witness for C8: a wrapper over Nat-typed parameters whose parse step
rejects the input produces the single unmarshalling-failure result. -/
theorem toolWrapperCall_never_faults_witness :
    toolWrapperCall (fun _ => (Except.error "bad json" : Except String Nat))
      (fun _ => Except.ok "unused") ⟨"id9", "adder", "nonsense"⟩ =
      NewToolResultBlock "id9" "Error unmarshalling parameters: bad json" true :=
  (toolWrapperCall_never_faults (fun _ => (Except.error "bad json" : Except String Nat))
    (fun _ => Except.ok "unused") ⟨"id9", "adder", "nonsense"⟩).2.1 "bad json" rfl

/-- C9: invoking a plugin tool runs its executable with the invocation's
parameters delivered on standard input and bounded by the per-plugin timeout
(the run oracle is applied to the block's raw input and `p.timeout`, not the
schema-discovery timeout); success (no run error) makes captured stdout the
success text, and a failing run yields a failure whose message includes
captured stderr whenever it is nonempty. -/
theorem pluginToolCall_protocol (run : String → String → Nat → ProcResult)
    (p : PluginToolData) (block : ToolUseBlock) :
    (PluginToolCall run p block).toolUseId = block.id ∧
    ((run p.path block.input p.timeout).runErr = none →
      PluginToolCall run p block =
        NewToolResultBlock block.id (run p.path block.input p.timeout).stdout false) ∧
    (∀ e, (run p.path block.input p.timeout).runErr = some e →
      (run p.path block.input p.timeout).stderr.length = 0 →
      PluginToolCall run p block =
        NewToolResultBlock block.id ("Plugin error: " ++ e) true) ∧
    (∀ e, (run p.path block.input p.timeout).runErr = some e →
      0 < (run p.path block.input p.timeout).stderr.length →
      PluginToolCall run p block =
        NewToolResultBlock block.id
          ("Plugin error: " ++ e ++ "\n" ++ (run p.path block.input p.timeout).stderr)
          true) := by
  refine ⟨?_, ?_, ?_, ?_⟩
  · simp only [PluginToolCall]
    rcases (run p.path block.input p.timeout).runErr with _ | e
    · rfl
    · by_cases hs : (run p.path block.input p.timeout).stderr.length > 0 <;>
        simp [hs, NewToolResultBlock]
  · intro he
    simp only [PluginToolCall, he]
  · intro e he hs
    simp only [PluginToolCall, he]
    simp [hs]
  · intro e he hs
    simp only [PluginToolCall, he]
    rw [if_pos hs]

/-- Witness for C9: a plugin run that exits nonzero with stderr text yields
the failure result whose message carries that stderr. -/
theorem pluginToolCall_protocol_witness :
    PluginToolCall (fun _ _ _ => ⟨some "exit status 1", "", "permission denied"⟩)
      ⟨"/plugins/x", 30⟩ ⟨"id1", "x", "{}"⟩ =
      NewToolResultBlock "id1" "Plugin error: exit status 1\npermission denied" true :=
  (pluginToolCall_protocol (fun _ _ _ => ⟨some "exit status 1", "", "permission denied"⟩)
    ⟨"/plugins/x", 30⟩ ⟨"id1", "x", "{}"⟩).2.2.2 "exit status 1" rfl (by decide)

/-- C10: loading plugins from an empty directory path or from a directory that
does not exist returns no tools and no errors — silently "no plugins" — while
a directory that exists but cannot be read produces the (nonempty) error
list. -/
theorem loadPlugins_silent_no_plugins (readDir : String → ReadDirResult)
    (newPluginTool : String → Except String ToolDef) (dir : String) :
    (LoadPlugins "" readDir newPluginTool = ([], [])) ∧
    (readDir dir = ReadDirResult.notExist →
      LoadPlugins dir readDir newPluginTool = ([], [])) ∧
    (∀ e, dir ≠ "" → readDir dir = ReadDirResult.failed e →
      LoadPlugins dir readDir newPluginTool =
        ([], ["reading plugin directory: " ++ e]) ∧
      (LoadPlugins dir readDir newPluginTool).2 ≠ []) := by
  refine ⟨by simp [LoadPlugins], ?_, ?_⟩
  · intro hne
    by_cases hdir : dir = ""
    · simp [LoadPlugins, hdir]
    · simp [LoadPlugins, hdir, hne]
  · intro e hdir hfail
    have : LoadPlugins dir readDir newPluginTool =
        ([], ["reading plugin directory: " ++ e]) := by
      simp [LoadPlugins, hdir, hfail]
    exact ⟨this, by rw [this]; simp⟩

/-- Witness for C10: a filesystem whose directory read reports not-exist gives
no tools and no errors, and a failing read gives the single warning. -/
theorem loadPlugins_silent_no_plugins_witness :
    LoadPlugins "plugins" (fun _ => ReadDirResult.notExist)
      (fun _ => Except.error "unused") = ([], []) ∧
    LoadPlugins "plugins" (fun _ => ReadDirResult.failed "permission denied")
      (fun _ => Except.error "unused") =
      ([], ["reading plugin directory: permission denied"]) :=
  ⟨(loadPlugins_silent_no_plugins (fun _ => ReadDirResult.notExist)
      (fun _ => Except.error "unused") "plugins").2.1 rfl,
    ((loadPlugins_silent_no_plugins (fun _ => ReadDirResult.failed "permission denied")
      (fun _ => Except.error "unused") "plugins").2.2 "permission denied"
      (by decide) rfl).1⟩
